import Mathlib

/-!
Verification of the placentagen tree-analysis module
(`src/source/placentagen/analyse_tree.py`) against its specification.

The tree functions consume a connectivity record produced by the external
collaborator `pg_utilities.element_connectivity_1D`, which is not part of the
analysed sources; it is modelled here from the specification contract
(spec sections 3 and 6).  Everything else is a direct shallow embedding of the
Python source: numpy integer arrays become functions `Nat → Nat` updated
pointwise (zero-initialised, as `np.zeros` produces), Python lists become Lean
lists, and loops become structural recursions in the same iteration order.
-/

namespace Placentagen

/-- Pointwise update of a zero-initialised array modelled as a function,
matching a single numpy element assignment `a[i] = v`. -/
def updateFn {α : Type} (f : Nat → α) (i : Nat) (v : α) : Nat → α :=
  fun j => if j = i then v else f j

/-- Entry `elems[ne][k]` of the element table (rows `[id, node1, node2]`),
with numpy-style reads modelled total via a default of `0`. -/
def elemVal (elems : List (List Nat)) (ne k : Nat) : Nat :=
  (elems.getD ne []).getD k 0

/-- Modelled from the spec: `pg_utilities.element_connectivity_1D` is not under
`src/`.  Spec section 3: the connectivity record holds, per element, the list of
downstream element ids — an element's downstream elements are exactly the
elements whose start node (column 1) equals its end node (column 2), listed in
element order. -/
def downstreamList (elems : List (List Nat)) (ne : Nat) : List Nat :=
  (List.range elems.length).filter (fun ne2 => elemVal elems ne2 1 = elemVal elems ne 2)

/-- Modelled from the spec: upstream counterpart of `downstreamList` — the
elements whose end node equals this element's start node. -/
def upstreamList (elems : List (List Nat)) (ne : Nat) : List Nat :=
  (List.range elems.length).filter (fun ne2 => elemVal elems ne2 2 = elemVal elems ne 1)

/-- Modelled from the spec: the `elem_down` array of the connectivity record,
in the layout the Python code reads — index `0` holds the count and index `k`
holds the `k`-th downstream element id; the numpy array is zero-initialised, so
entries past the count read as `0`. -/
def elem_down (elems : List (List Nat)) (ne k : Nat) : Nat :=
  if k = 0 then (downstreamList elems ne).length
  else (downstreamList elems ne).getD (k - 1) 0

/-- Modelled from the spec: the `elem_up` array of the connectivity record,
same layout as `elem_down` (count at index `0`, ids from index `1`, zero fill). -/
def elem_up (elems : List (List Nat)) (ne k : Nat) : Nat :=
  if k = 0 then (upstreamList elems ne).length
  else (upstreamList elems ne).getD (k - 1) 0

/-- Result record of `calc_terminal_branch` (the returned dict). -/
structure TerminalList where
  terminal_elems : List Nat
  terminal_nodes : List Nat
  total_terminals : Nat
  deriving Repr, DecidableEq

/-- Embedding of `calc_terminal_branch` (analyse_tree.py lines 18-56): scan the
elements in order, collect every element whose downstream count is zero
together with its leaving node `elems[ne][2]`, and return the compacted lists
(the numpy buffers plus `np.resize` are modelled as grown lists) with the
final counter. -/
def calc_terminal_branch (_node_loc : List (List Rat)) (elems : List (List Nat)) :
    TerminalList :=
  let acc := (List.range elems.length).foldl
    (fun (acc : List Nat × List Nat) ne =>
      if elem_down elems ne 0 = 0 then
        (acc.1 ++ [ne], acc.2 ++ [elemVal elems ne 2])
      else acc)
    ([], [])
  ⟨acc.1, acc.2, acc.1.length⟩

/-- Generation value written for element `ne` (analyse_tree.py lines 78-89):
the code takes `ne0 = elem_upstream[ne][1]` and tests the element id `ne0`
against `0` to decide whether `ne` is an inlet; otherwise it inherits the
parent generation, incremented when the parent has two or more children (when
the parent has no recorded children the entry is left at its current value). -/
def genVal (elems : List (List Nat)) (g : Nat → Nat) (ne : Nat) : Nat :=
  let ne0 := elem_up elems ne 1
  if ne0 ≠ 0 then
    if elem_down elems ne0 0 = 1 then g ne0
    else if 2 ≤ elem_down elems ne0 0 then g ne0 + 1
    else g ne
  else 1

/-- Forward generation pass: `for ne in range(0, num_elems)` — `genLoop elems g k`
has processed elements `0, 1, …, k-1` in increasing order. -/
def genLoop (elems : List (List Nat)) (g : Nat → Nat) : Nat → (Nat → Nat)
  | 0 => g
  | k + 1 =>
    let gp := genLoop elems g k
    updateFn gp k (genVal elems gp k)

/-- One step of the inner child loop (analyse_tree.py lines 103-112), acting on
the state `(n_horsfield, temp_strahler, strahler_add)` for one child `c`. -/
def childStep (hf st : Nat → Nat) (acc : Nat × Nat × Nat) (c : Nat) : Nat × Nat × Nat :=
  let nh := if acc.1 < hf c then hf c else acc.1
  if st c < acc.2.1 then (nh, acc.2.1, 0)
  else if acc.2.1 < st c then (nh, st c, 0)
  else (nh, acc.2.1, acc.2.2)

/-- The child ids visited by the inner loop
`for noelem in range(1, n_children + 1)`. -/
def childrenOf (elems : List (List Nat)) (ne : Nat) : List Nat :=
  (List.range (elem_down elems ne 0)).map (fun k => elem_down elems ne (k + 1))

/-- The `(horsfield[ne], strahler[ne])` pair written by one iteration of the
backward loop (analyse_tree.py lines 94-119), as a function of the current
arrays: a single child of generation `0` is discarded, a multifurcation folds
`childStep` over all children starting from the first child's strahler, and the
final values are `n_horsfield (+1)` and `temp_strahler + strahler_add`. -/
def ordVal (elems : List (List Nat)) (g hf st : Nat → Nat) (ne : Nat) : Nat × Nat :=
  let nh0 := max (hf ne) 1
  let nc0 := elem_down elems ne 0
  let nc := if nc0 = 1 ∧ g (elem_down elems ne 1) = 0 then 0 else nc0
  if 2 ≤ nc then
    let r := (childrenOf elems ne).foldl (childStep hf st) (nh0, st (elem_down elems ne 1), 1)
    (r.1 + 1, r.2.1 + r.2.2)
  else if nc = 1 then
    (hf (elem_down elems ne 1), 0 + st (elem_down elems ne 1))
  else (nh0, 0 + 1)

/-- Backward ordering pass: `for ne in range(num_elems - 1, -1, -1)` —
`ordLoop elems g s k` processes elements `k-1, k-2, …, 0` in that order,
starting from state `s` (the pair of the horsfield and strahler arrays). -/
def ordLoop (elems : List (List Nat)) (g : Nat → Nat) :
    ((Nat → Nat) × (Nat → Nat)) → Nat → ((Nat → Nat) × (Nat → Nat))
  | s, 0 => s
  | s, k + 1 =>
    let v := ordVal elems g s.1 s.2 k
    ordLoop elems g (updateFn s.1 k v.1, updateFn s.2 k v.2) k

/-- Result record of `evaluate_orders` (the returned dict of three arrays). -/
structure Orders where
  generation : Nat → Nat
  horsfield : Nat → Nat
  strahler : Nat → Nat

/-- Embedding of `evaluate_orders` (analyse_tree.py lines 59-121): the forward
generation pass followed by the backward Horsfield/Strahler pass over the
zero-initialised arrays.  The function body contains no topology validation of
any kind — it unconditionally returns the three arrays. -/
def evaluate_orders (_node_loc : List (List Rat)) (elems : List (List Nat)) : Orders :=
  let n := elems.length
  let g := genLoop elems (fun _ => 0) n
  let hs := ordLoop elems g ((fun _ => 0), (fun _ => 0)) n
  ⟨g, hs.1, hs.2⟩

/-- Three-element test tree of the concrete spec scenario: element 0 is the
root `R` ending at node 1, elements 1 and 2 (`B`, `C`) both start at node 1. -/
def elems3 : List (List Nat) := [[0, 0, 1], [1, 1, 2], [2, 1, 3]]

/-- Node table for the three-element scenario (rows `[id, x, y, z]`; the order
computations never read the coordinates). -/
def nodes3 : List (List Rat) :=
  [[0, 0, 0, 0], [1, 0, 0, 1], [2, 1, 0, 2], [3, -1, 0, 2]]

/-- Number of elements with zero upstream count, following the wording of the
specification failure clause ("more than one element has zero upstream count");
used only to state claims about invalid topologies. -/
def num_zero_upstream (elems : List (List Nat)) : Nat :=
  ((List.range elems.length).filter (fun ne => elem_up elems ne 0 = 0)).length

/-- Strahler combination rule as worded by the specification: the maximal child
strahler value, incremented exactly when at least two children attain that
maximum; used only to state the claim, to be compared with the source. -/
def specStrahler (l : List Nat) : Nat :=
  let m := l.foldr max 0
  m + (if 2 ≤ l.countP (fun x => x = m) then 1 else 0)

/-- Eight-element tree with a trifurcation at the root: element 0 ends at
node 1; elements 1, 2, 3 all start at node 1; element 1 bifurcates into
elements 4, 5 and element 3 into elements 6, 7; element 2 is terminal. -/
def elems8 : List (List Nat) :=
  [[0, 0, 1], [1, 1, 2], [2, 1, 5], [3, 1, 6],
   [4, 2, 3], [5, 2, 4], [6, 6, 7], [7, 6, 8]]

/-- Node table for the trifurcation tree (coordinates are never read by the
order computations). -/
def nodes8 : List (List Rat) :=
  [[0, 0, 0, 0], [1, 0, 0, 1], [2, 1, 0, 2], [3, 1, 0, 3], [4, 2, 0, 3],
   [5, 0, 0, 2], [6, 3, 0, 2], [7, 3, 0, 3], [8, 4, 0, 3]]

/-- Two-root forest: the two elements share no node, so both have zero
upstream count. -/
def elems2r : List (List Nat) := [[0, 0, 1], [1, 2, 3]]

/-- Node table for the two-root forest. -/
def nodes2r : List (List Rat) :=
  [[0, 0, 0, 0], [1, 0, 0, 1], [2, 1, 0, 0], [3, 1, 0, 1]]

/-- Reconvergent input: elements 0 and 1 both end at node 2, so element 2 has
two upstream elements. -/
def elemsRc : List (List Nat) := [[0, 0, 2], [1, 1, 2], [2, 2, 3]]

/-- Node table for the reconvergent input. -/
def nodesRc : List (List Rat) :=
  [[0, 0, 0, 0], [1, 1, 0, 0], [2, 0, 0, 1], [3, 0, 0, 2]]

/-- C1: on the concrete three-element scenario (root element 0 feeding the
bifurcation into terminal elements 1 and 2) the code returns
strahler `[2,1,1]`, horsfield `[2,1,1]` and the terminal set `{1, 2}` as the
claim states, but generation `[1,1,1]` instead of the claimed `[1,2,2]`: the
generation pass (line 79) tests the upstream element id `ne0` against `0`
instead of testing the upstream count, so the children of element 0 take the
inlet branch (commented `# Inlet`) and get generation 1. -/
theorem C1_concrete_tree_eval :
    (evaluate_orders nodes3 elems3).generation 0 = 1 ∧
    (evaluate_orders nodes3 elems3).generation 1 = 1 ∧
    (evaluate_orders nodes3 elems3).generation 2 = 1 ∧
    (evaluate_orders nodes3 elems3).strahler 0 = 2 ∧
    (evaluate_orders nodes3 elems3).strahler 1 = 1 ∧
    (evaluate_orders nodes3 elems3).strahler 2 = 1 ∧
    (evaluate_orders nodes3 elems3).horsfield 0 = 2 ∧
    (evaluate_orders nodes3 elems3).horsfield 1 = 1 ∧
    (evaluate_orders nodes3 elems3).horsfield 2 = 1 ∧
    (calc_terminal_branch nodes3 elems3).terminal_elems = [1, 2] ∧
    (calc_terminal_branch nodes3 elems3).terminal_nodes = [2, 3] ∧
    (calc_terminal_branch nodes3 elems3).total_terminals = 2 := by
  decide

/-- C2 counterexample: at the trifurcation (element 0 of `elems8`, three
downstream children) the children's strahler values are `2, 1, 2`, so the
claimed rule (increment the maximum when at least two children attain it)
demands `3`; the code returns `2`, because the `strahler_add` flag is cleared
by the middle child of strahler 1 and is never restored. -/
theorem C2_counterexample :
    elem_down elems8 0 0 = 3 ∧
    (evaluate_orders nodes8 elems8).strahler (elem_down elems8 0 1) = 2 ∧
    (evaluate_orders nodes8 elems8).strahler (elem_down elems8 0 2) = 1 ∧
    (evaluate_orders nodes8 elems8).strahler (elem_down elems8 0 3) = 2 ∧
    specStrahler [2, 1, 2] = 3 ∧
    (evaluate_orders nodes8 elems8).strahler 0 = 2 ∧
    (evaluate_orders nodes8 elems8).strahler 0 ≠
      specStrahler
        [(evaluate_orders nodes8 elems8).strahler (elem_down elems8 0 1),
         (evaluate_orders nodes8 elems8).strahler (elem_down elems8 0 2),
         (evaluate_orders nodes8 elems8).strahler (elem_down elems8 0 3)] := by
  decide

/-- C3 counterexample: on an input whose connectivity has two elements of zero
upstream count, `evaluate_orders` does not fail — its body contains no
topology validation — and returns order values for both roots. -/
theorem C3_counterexample :
    num_zero_upstream elems2r = 2 ∧
    (evaluate_orders nodes2r elems2r).generation 0 = 1 ∧
    (evaluate_orders nodes2r elems2r).generation 1 = 1 ∧
    (evaluate_orders nodes2r elems2r).strahler 0 = 1 ∧
    (evaluate_orders nodes2r elems2r).strahler 1 = 1 ∧
    (evaluate_orders nodes2r elems2r).horsfield 0 = 1 ∧
    (evaluate_orders nodes2r elems2r).horsfield 1 = 1 := by
  decide

/-- C3 (amended): `evaluate_orders` performs no topology validation; on a
reconvergent input (element 2 of `elemsRc` has two upstream elements) it again
returns order values instead of failing. -/
theorem C3_no_topology_check :
    elem_up elemsRc 2 0 = 2 ∧
    (evaluate_orders nodesRc elemsRc).generation 0 = 1 ∧
    (evaluate_orders nodesRc elemsRc).generation 1 = 1 ∧
    (evaluate_orders nodesRc elemsRc).generation 2 = 1 ∧
    (evaluate_orders nodesRc elemsRc).strahler 0 = 1 ∧
    (evaluate_orders nodesRc elemsRc).strahler 1 = 1 ∧
    (evaluate_orders nodesRc elemsRc).strahler 2 = 1 ∧
    (evaluate_orders nodesRc elemsRc).horsfield 0 = 1 ∧
    (evaluate_orders nodesRc elemsRc).horsfield 1 = 1 ∧
    (evaluate_orders nodesRc elemsRc).horsfield 2 = 1 := by
  decide

/-- The terminal-collecting fold appends, in traversal order, exactly the
elements whose downstream count is zero, and their leaving nodes. -/
theorem terminal_foldl (elems : List (List Nat)) (l : List Nat) (a b : List Nat) :
    (l.foldl
      (fun (acc : List Nat × List Nat) ne =>
        if elem_down elems ne 0 = 0 then
          (acc.1 ++ [ne], acc.2 ++ [elemVal elems ne 2])
        else acc)
      (a, b))
    = (a ++ l.filter (fun ne => elem_down elems ne 0 = 0),
       b ++ (l.filter (fun ne => elem_down elems ne 0 = 0)).map
              (fun ne => elemVal elems ne 2)) := by
  induction l generalizing a b with
  | nil => simp
  | cons x xs ih =>
    by_cases h : elem_down elems x 0 = 0
    · simp [List.foldl_cons, List.filter_cons, h, ih]
    · simp [List.foldl_cons, List.filter_cons, h, ih]

/-- C4: `calc_terminal_branch` returns exactly the elements of zero downstream
count — membership holds iff the element is in range and has no downstream
element — listed as the filter of the increasing traversal order (hence
compacted, with no trailing slots), each paired with its leaf node
`elems[ne][2]`, and `total_terminals` equals the length of the returned list. -/
theorem C4_terminal_characterisation (node_loc : List (List Rat))
    (elems : List (List Nat)) :
    ((calc_terminal_branch node_loc elems).terminal_elems
        = (List.range elems.length).filter (fun ne => elem_down elems ne 0 = 0)) ∧
    (∀ ne, ne ∈ (calc_terminal_branch node_loc elems).terminal_elems ↔
        (ne < elems.length ∧ elem_down elems ne 0 = 0)) ∧
    ((calc_terminal_branch node_loc elems).terminal_nodes
        = (calc_terminal_branch node_loc elems).terminal_elems.map
            (fun ne => elemVal elems ne 2)) ∧
    ((calc_terminal_branch node_loc elems).total_terminals
        = (calc_terminal_branch node_loc elems).terminal_elems.length) := by
  unfold calc_terminal_branch
  rw [terminal_foldl]
  refine ⟨by simp, ?_, by simp, by simp⟩
  intro ne
  simp [List.mem_filter, List.mem_range]

/-- The state an element sees when the backward loop reaches it: indices up to
`ne` still hold the start state `s`, larger indices already hold their final
values `t`. -/
def mixFn (s t : Nat → Nat) (ne : Nat) : Nat → Nat :=
  fun i => if i ≤ ne then s i else t i

/-- Indices not yet reached by the backward loop keep their start values:
`ordLoop … s k` only writes indices below `k`. -/
theorem ordLoop_untouched (elems : List (List Nat)) (g : Nat → Nat) :
    ∀ (k : Nat) (s : (Nat → Nat) × (Nat → Nat)) (i : Nat), k ≤ i →
      (ordLoop elems g s k).1 i = s.1 i ∧ (ordLoop elems g s k).2 i = s.2 i := by
  intro k
  induction k with
  | zero => intro s i _; exact ⟨rfl, rfl⟩
  | succ k ih =>
    intro s i hi
    have hne : i ≠ k := by omega
    have h := ih (updateFn s.1 k (ordVal elems g s.1 s.2 k).1,
                  updateFn s.2 k (ordVal elems g s.1 s.2 k).2) i (by omega)
    simpa [ordLoop, updateFn, hne] using h

/-- Localisation of the backward loop: the final value at `ne` is `ordVal`
applied to the state the loop held when it processed `ne` — start values at
indices up to `ne`, final values above. -/
theorem ordLoop_at (elems : List (List Nat)) (g : Nat → Nat) :
    ∀ (k : Nat) (s : (Nat → Nat) × (Nat → Nat)) (ne : Nat), ne < k →
      (ordLoop elems g s k).1 ne
          = (ordVal elems g (mixFn s.1 (ordLoop elems g s k).1 ne)
              (mixFn s.2 (ordLoop elems g s k).2 ne) ne).1 ∧
      (ordLoop elems g s k).2 ne
          = (ordVal elems g (mixFn s.1 (ordLoop elems g s k).1 ne)
              (mixFn s.2 (ordLoop elems g s k).2 ne) ne).2 := by
  intro k
  induction k with
  | zero => intro s ne h; omega
  | succ k ih =>
    intro s ne hne
    set v := ordVal elems g s.1 s.2 k with hv
    set s2 : (Nat → Nat) × (Nat → Nat) :=
      (updateFn s.1 k v.1, updateFn s.2 k v.2) with hs2
    have hrec : ordLoop elems g s (k + 1) = ordLoop elems g s2 k := rfl
    by_cases hk : ne = k
    · subst hk
      have hu := ordLoop_untouched elems g ne s2 ne le_rfl
      have hmix1 : mixFn s.1 (ordLoop elems g s (ne + 1)).1 ne = s.1 := by
        funext i
        by_cases hi : i ≤ ne
        · simp [mixFn, hi]
        · have h2 := ordLoop_untouched elems g ne s2 i (by omega)
          have hik : i ≠ ne := by omega
          simp [mixFn, hi, hrec, h2.1, hs2, updateFn, hik]
      have hmix2 : mixFn s.2 (ordLoop elems g s (ne + 1)).2 ne = s.2 := by
        funext i
        by_cases hi : i ≤ ne
        · simp [mixFn, hi]
        · have h2 := ordLoop_untouched elems g ne s2 i (by omega)
          have hik : i ≠ ne := by omega
          simp [mixFn, hi, hrec, h2.2, hs2, updateFn, hik]
      rw [hrec] at hmix1 hmix2 ⊢
      rw [hmix1, hmix2]
      constructor
      · rw [hu.1]; simp [hs2, updateFn, hv]
      · rw [hu.2]; simp [hs2, updateFn, hv]
    · have hlt : ne < k := by omega
      have h := ih s2 ne hlt
      have hmix1 : mixFn s2.1 (ordLoop elems g s2 k).1 ne
          = mixFn s.1 (ordLoop elems g s (k + 1)).1 ne := by
        funext i
        by_cases hi : i ≤ ne
        · have hik : i ≠ k := by omega
          simp [mixFn, hi, hs2, updateFn, hik]
        · simp [mixFn, hi, hrec]
      have hmix2 : mixFn s2.2 (ordLoop elems g s2 k).2 ne
          = mixFn s.2 (ordLoop elems g s (k + 1)).2 ne := by
        funext i
        by_cases hi : i ≤ ne
        · have hik : i ≠ k := by omega
          simp [mixFn, hi, hs2, updateFn, hik]
        · simp [mixFn, hi, hrec]
      rw [hrec]
      exact ⟨h.1.trans (by rw [hmix1, hmix2, ← hrec]),
             h.2.trans (by rw [hmix1, hmix2, ← hrec])⟩

/-- Closed form of the inner child loop: the first component accumulates the
running maximum of the children's horsfield values, the second the running
maximum of their strahler values, and the add flag survives exactly when every
child's strahler equals the initial reference value. -/
theorem childFold_eval (hf st : Nat → Nat) :
    ∀ (l : List Nat) (a t sa : Nat),
      l.foldl (childStep hf st) (a, t, sa)
        = ((l.map hf).foldl max a, (l.map st).foldl max t,
           if l.all (fun c => st c = t) then sa else 0) := by
  intro l
  induction l with
  | nil => intro a t sa; simp
  | cons c l ih =>
    intro a t sa
    have hmax : (if a < hf c then hf c else a) = max a (hf c) := by
      split <;> omega
    rcases Nat.lt_trichotomy (st c) t with h | h | h
    · have hstep : childStep hf st (a, t, sa) c = (max a (hf c), t, 0) := by
        simp [childStep, hmax, h]
      have hmt : max t (st c) = t := by omega
      have hall : (st c = t) = False := by simp; omega
      simp [List.foldl_cons, hstep, ih, hmt, hall]
    · have hstep : childStep hf st (a, t, sa) c = (max a (hf c), t, sa) := by
        simp [childStep, hmax, h]
      have hmt : max t (st c) = t := by omega
      simp [List.foldl_cons, hstep, ih, hmt, h]
    · have hstep : childStep hf st (a, t, sa) c = (max a (hf c), st c, 0) := by
        have h2 : ¬ st c < t := by omega
        simp [childStep, hmax, h, h2]
      have hmt : max t (st c) = st c := by omega
      have hall : (st c = t) = False := by simp; omega
      simp [List.foldl_cons, hstep, ih, hmt, hall]

/-- Folding `max` from an arbitrary start value equals taking `max` of the
start value with the fold from zero. -/
theorem foldl_max_from (l : List Nat) : ∀ a : Nat, l.foldl max a = max a (l.foldl max 0) := by
  induction l with
  | nil => intro a; simp
  | cons c l ih =>
    intro a
    have h0 : max 0 c = c := by omega
    rw [List.foldl_cons, List.foldl_cons, ih (max a c), ih (max 0 c), h0, Nat.max_assoc]

/-- Any list member is bounded by the `max` fold of the list. -/
theorem mem_le_foldl_max (l : List Nat) (x : Nat) (hx : x ∈ l) : x ≤ l.foldl max 0 := by
  induction l with
  | nil => cases hx
  | cons c l ih =>
    rw [List.foldl_cons, foldl_max_from]
    rcases List.mem_cons.mp hx with h | h
    · omega
    · have := ih h; omega

/-- The children recorded by the modelled connectivity are genuine element
indices: each lies below the element count. -/
theorem elem_down_lt (elems : List (List Nat)) (ne j : Nat)
    (hj : j < elem_down elems ne 0) :
    elem_down elems ne (j + 1) < elems.length := by
  have hlen : j < (downstreamList elems ne).length := by
    simpa [elem_down] using hj
  have hget : elem_down elems ne (j + 1) = (downstreamList elems ne).getD j 0 := by
    simp [elem_down]
  rw [hget, List.getD_eq_getElem (downstreamList elems ne) 0 hlen]
  have hmem := List.getElem_mem (l := downstreamList elems ne) (n := j) hlen
  simp only [downstreamList] at hmem
  exact List.mem_range.mp (List.mem_filter.mp hmem).1

/-- The child list has exactly `n_children` entries, the `j`-th being
`elem_down elems ne (j+1)`. -/
theorem childrenOf_length (elems : List (List Nat)) (ne : Nat) :
    (childrenOf elems ne).length = elem_down elems ne 0 := by
  simp [childrenOf]

/-- Membership description of the child list. -/
theorem mem_childrenOf (elems : List (List Nat)) (ne c : Nat) :
    c ∈ childrenOf elems ne ↔
      ∃ j, j < elem_down elems ne 0 ∧ c = elem_down elems ne (j + 1) := by
  simp only [childrenOf, List.mem_map, List.mem_range]
  constructor
  · rintro ⟨j, hj, rfl⟩; exact ⟨j, hj, rfl⟩
  · rintro ⟨j, hj, rfl⟩; exact ⟨j, hj, rfl⟩

/-- The first child is a member of the child list whenever there are children. -/
theorem first_child_mem (elems : List (List Nat)) (ne : Nat)
    (h : 1 ≤ elem_down elems ne 0) :
    elem_down elems ne 1 ∈ childrenOf elems ne := by
  exact (mem_childrenOf elems ne _).mpr ⟨0, h, rfl⟩

/-- Evaluation of `ordVal` at an element with at least two recorded children:
the bifurcation branch of the backward loop in closed form. -/
theorem ordVal_of_two (elems : List (List Nat)) (g hf st : Nat → Nat) (ne : Nat)
    (h : 2 ≤ elem_down elems ne 0) :
    ordVal elems g hf st ne
      = (((childrenOf elems ne).map hf).foldl max (max (hf ne) 1) + 1,
         ((childrenOf elems ne).map st).foldl max (st (elem_down elems ne 1)) +
           (if (childrenOf elems ne).all
               (fun c => st c = st (elem_down elems ne 1)) then 1 else 0)) := by
  have hcond : ¬ (elem_down elems ne 0 = 1 ∧ g (elem_down elems ne 1) = 0) := by
    rintro ⟨h1, _⟩; omega
  unfold ordVal
  simp only [hcond, if_false, if_pos h, childFold_eval]

/-- Evaluation of `ordVal` at an element with one real child (generation of the
child nonzero): the continuation branch passes both orders through. -/
theorem ordVal_of_one (elems : List (List Nat)) (g hf st : Nat → Nat) (ne : Nat)
    (h : elem_down elems ne 0 = 1) (hg : g (elem_down elems ne 1) ≠ 0) :
    ordVal elems g hf st ne
      = (hf (elem_down elems ne 1), 0 + st (elem_down elems ne 1)) := by
  have hcond : ¬ (elem_down elems ne 0 = 1 ∧ g (elem_down elems ne 1) = 0) := by
    rintro ⟨_, h2⟩; exact hg h2
  unfold ordVal
  simp [h, hg]

/-- Evaluation of `ordVal` at an element whose single child has generation
zero: the child is discarded and the element is treated as terminal. -/
theorem ordVal_of_ghost (elems : List (List Nat)) (g hf st : Nat → Nat) (ne : Nat)
    (h : elem_down elems ne 0 = 1) (hg : g (elem_down elems ne 1) = 0) :
    ordVal elems g hf st ne = (max (hf ne) 1, 0 + 1) := by
  unfold ordVal
  simp [h, hg]

/-- Evaluation of `ordVal` at an element with no children: the terminal
branch yields horsfield `max (hf ne) 1` and strahler `1`. -/
theorem ordVal_of_zero (elems : List (List Nat)) (g hf st : Nat → Nat) (ne : Nat)
    (h : elem_down elems ne 0 = 0) :
    ordVal elems g hf st ne = (max (hf ne) 1, 0 + 1) := by
  unfold ordVal
  simp [h]

/-- Zero-initialised backward-pass state (`np.zeros` arrays). -/
def zeroState : (Nat → Nat) × (Nat → Nat) := ((fun _ => 0), (fun _ => 0))

/-- When the element table is topologically ordered (every child index exceeds
its parent index), every element processed by the backward pass ends with
horsfield and strahler at least 1. -/
theorem ordLoop_pos (elems : List (List Nat)) (g : Nat → Nat)
    (htopo : ∀ m, m < elems.length → ∀ j, j < elem_down elems m 0 →
      m < elem_down elems m (j + 1)) :
    ∀ (fuel ne : Nat), ne < elems.length → elems.length - ne ≤ fuel →
      1 ≤ (ordLoop elems g zeroState elems.length).1 ne ∧
      1 ≤ (ordLoop elems g zeroState elems.length).2 ne := by
  intro fuel
  induction fuel with
  | zero => intro ne h1 h2; omega
  | succ fuel ih =>
    intro ne h1 h2
    obtain ⟨e1, e2⟩ := ordLoop_at elems g elems.length zeroState ne h1
    rcases Nat.lt_or_ge (elem_down elems ne 0) 2 with hsmall | hbig
    · rcases Nat.lt_or_ge (elem_down elems ne 0) 1 with h0 | h1c
      · have hz : elem_down elems ne 0 = 0 := by omega
        rw [ordVal_of_zero elems g _ _ ne hz] at e1 e2
        constructor
        · rw [e1]; exact le_max_right _ _
        · omega
      · have hone : elem_down elems ne 0 = 1 := by omega
        have hc0 : ne < elem_down elems ne 1 := by
          simpa using htopo ne h1 0 (by omega)
        have hc0lt : elem_down elems ne 1 < elems.length := by
          simpa using elem_down_lt elems ne 0 (by omega)
        by_cases hg : g (elem_down elems ne 1) = 0
        · rw [ordVal_of_ghost elems g _ _ ne hone hg] at e1 e2
          constructor
          · rw [e1]; exact le_max_right _ _
          · omega
        · rw [ordVal_of_one elems g _ _ ne hone hg] at e1 e2
          have hmix1 : mixFn zeroState.1 (ordLoop elems g zeroState elems.length).1 ne
              (elem_down elems ne 1)
                = (ordLoop elems g zeroState elems.length).1 (elem_down elems ne 1) := by
            have : ¬ elem_down elems ne 1 ≤ ne := by omega
            simp [mixFn, this]
          have hmix2 : mixFn zeroState.2 (ordLoop elems g zeroState elems.length).2 ne
              (elem_down elems ne 1)
                = (ordLoop elems g zeroState elems.length).2 (elem_down elems ne 1) := by
            have : ¬ elem_down elems ne 1 ≤ ne := by omega
            simp [mixFn, this]
          rw [hmix1] at e1
          rw [hmix2] at e2
          have hrec := ih (elem_down elems ne 1) hc0lt (by omega)
          omega
    · rw [ordVal_of_two elems g _ _ ne hbig] at e1 e2
      constructor
      · simp only [e1]; omega
      · have hc0 : ne < elem_down elems ne 1 := by
          simpa using htopo ne h1 0 (by omega)
        have hc0lt : elem_down elems ne 1 < elems.length := by
          simpa using elem_down_lt elems ne 0 (by omega)
        have hmix2 : mixFn zeroState.2 (ordLoop elems g zeroState elems.length).2 ne
            (elem_down elems ne 1)
              = (ordLoop elems g zeroState elems.length).2 (elem_down elems ne 1) := by
          have : ¬ elem_down elems ne 1 ≤ ne := by omega
          simp [mixFn, this]
        have hrec := ih (elem_down elems ne 1) hc0lt (by omega)
        have hfold := foldl_max_from
          (((childrenOf elems ne)).map
            (mixFn zeroState.2 (ordLoop elems g zeroState elems.length).2 ne))
          (mixFn zeroState.2 (ordLoop elems g zeroState elems.length).2 ne
            (elem_down elems ne 1))
        rw [hfold, hmix2] at e2
        have := le_max_left
          ((ordLoop elems g zeroState elems.length).2 (elem_down elems ne 1))
          ((((childrenOf elems ne)).map
            (mixFn zeroState.2 (ordLoop elems g zeroState elems.length).2 ne)).foldl max 0)
        omega

/-- Pointwise-equal Bool predicates give equal `List.all` results. -/
theorem all_congr_list {p q : Nat → Bool} :
    ∀ (l : List Nat), (∀ x ∈ l, p x = q x) → l.all p = l.all q := by
  intro l
  induction l with
  | nil => intro _; rfl
  | cons c l ih =>
    intro h
    simp only [List.all_cons, h c (List.mem_cons_self c l),
      ih (fun x hx => h x (List.mem_cons_of_mem c hx))]

/-- Pointwise-equal functions give equal `List.map` results. -/
theorem map_congr_list {f q : Nat → Nat} :
    ∀ (l : List Nat), (∀ x ∈ l, f x = q x) → l.map f = l.map q := by
  intro l
  induction l with
  | nil => intro _; rfl
  | cons c l ih =>
    intro h
    simp only [List.map_cons, h c (List.mem_cons_self c l),
      ih (fun x hx => h x (List.mem_cons_of_mem c hx)), List.cons.injEq, and_self]

/-- C2 (amended): for an element with two or more downstream children, in a
topologically ordered element table (each child index exceeds its parent
index), the backward pass assigns horsfield `1 + max` over the children's
horsfield values, and strahler equal to the maximum child strahler value
incremented exactly when ALL children share one strahler value (the first
child's) — not, as claimed, whenever at least two children attain the
maximum. -/
theorem C2_multifurcation_orders (node_loc : List (List Rat))
    (elems : List (List Nat)) (ne : Nat)
    (htopo : ∀ m, m < elems.length → ∀ j, j < elem_down elems m 0 →
      m < elem_down elems m (j + 1))
    (hne : ne < elems.length)
    (hc : 2 ≤ elem_down elems ne 0) :
    (evaluate_orders node_loc elems).horsfield ne
        = ((childrenOf elems ne).map
            (evaluate_orders node_loc elems).horsfield).foldl max 0 + 1 ∧
    (evaluate_orders node_loc elems).strahler ne
        = ((childrenOf elems ne).map
            (evaluate_orders node_loc elems).strahler).foldl max 0 +
          (if (childrenOf elems ne).all
              (fun c => (evaluate_orders node_loc elems).strahler c
                 = (evaluate_orders node_loc elems).strahler (elem_down elems ne 1))
           then 1 else 0) := by
  set g := genLoop elems (fun _ => 0) elems.length with hg
  have hid1 : (evaluate_orders node_loc elems).horsfield
      = (ordLoop elems g zeroState elems.length).1 := rfl
  have hid2 : (evaluate_orders node_loc elems).strahler
      = (ordLoop elems g zeroState elems.length).2 := rfl
  rw [hid1, hid2]
  obtain ⟨e1, e2⟩ := ordLoop_at elems g elems.length zeroState ne hne
  rw [ordVal_of_two elems g _ _ ne hc] at e1 e2
  dsimp only at e1 e2
  set F1 := (ordLoop elems g zeroState elems.length).1 with hF1
  set F2 := (ordLoop elems g zeroState elems.length).2 with hF2
  -- the state the loop read agrees with the final arrays on every child
  have hchild : ∀ c ∈ childrenOf elems ne,
      mixFn zeroState.1 F1 ne c = F1 c ∧ mixFn zeroState.2 F2 ne c = F2 c := by
    intro c hcmem
    obtain ⟨j, hj, rfl⟩ := (mem_childrenOf elems ne c).mp hcmem
    have hgt := htopo ne hne j hj
    have hle : ¬ elem_down elems ne (j + 1) ≤ ne := by omega
    exact ⟨by simp [mixFn, hle], by simp [mixFn, hle]⟩
  have hone_le : (1 : Nat) ≤ elem_down elems ne 0 := by omega
  have hc0mem := first_child_mem elems ne hone_le
  have hc0 : ne < elem_down elems ne 1 := by
    simpa using htopo ne hne 0 (by omega)
  have hc0lt : elem_down elems ne 1 < elems.length := by
    simpa using elem_down_lt elems ne 0 (by omega)
  have hc0le : ¬ elem_down elems ne 1 ≤ ne := by omega
  have hmixself : mixFn zeroState.1 F1 ne ne = 0 := by simp [mixFn, zeroState]
  have hmixc2 : mixFn zeroState.2 F2 ne (elem_down elems ne 1)
      = F2 (elem_down elems ne 1) := by simp [mixFn, hc0le]
  have hmap1 : (childrenOf elems ne).map (mixFn zeroState.1 F1 ne)
      = (childrenOf elems ne).map F1 :=
    map_congr_list _ (fun c hcmem => (hchild c hcmem).1)
  have hmap2 : (childrenOf elems ne).map (mixFn zeroState.2 F2 ne)
      = (childrenOf elems ne).map F2 :=
    map_congr_list _ (fun c hcmem => (hchild c hcmem).2)
  have hpos := ordLoop_pos elems g htopo (elems.length) (elem_down elems ne 1)
    hc0lt (by omega)
  rw [← hF1, ← hF2] at hpos
  constructor
  · -- horsfield component
    rw [e1, hmixself, hmap1, foldl_max_from]
    have hmem : F1 (elem_down elems ne 1) ∈ (childrenOf elems ne).map F1 :=
      List.mem_map_of_mem F1 hc0mem
    have hle1 := mem_le_foldl_max _ _ hmem
    have hp1 := hpos.1
    omega
  · -- strahler component
    have hall : (childrenOf elems ne).all
        (fun c => mixFn zeroState.2 F2 ne c
           = mixFn zeroState.2 F2 ne (elem_down elems ne 1))
        = (childrenOf elems ne).all
            (fun c => F2 c = F2 (elem_down elems ne 1)) := by
      apply all_congr_list
      intro x hx
      rw [(hchild x hx).2, hmixc2]
    rw [e2, hall, hmixc2, hmap2, foldl_max_from]
    have hmem : F2 (elem_down elems ne 1) ∈ (childrenOf elems ne).map F2 :=
      List.mem_map_of_mem F2 hc0mem
    have hle2 := mem_le_foldl_max _ _ hmem
    have hmax : max (F2 (elem_down elems ne 1))
        (((childrenOf elems ne).map F2).foldl max 0)
        = ((childrenOf elems ne).map F2).foldl max 0 := by omega
    rw [hmax]

/-- Witness for the amended C2 theorem: the three-element tree is
topologically ordered, its root has two children, and the theorem instantiates
to horsfield 2 and strahler 2 at the root. -/
theorem C2_multifurcation_orders_witness :
    (∀ m, m < elems3.length → ∀ j, j < elem_down elems3 m 0 →
      m < elem_down elems3 m (j + 1)) ∧
    0 < elems3.length ∧ 2 ≤ elem_down elems3 0 0 ∧
    (evaluate_orders nodes3 elems3).horsfield 0 = 2 ∧
    (evaluate_orders nodes3 elems3).strahler 0 = 2 := by
  have htopo : ∀ m, m < elems3.length → ∀ j, j < elem_down elems3 m 0 →
      m < elem_down elems3 m (j + 1) := by decide
  have h := C2_multifurcation_orders nodes3 elems3 0 htopo (by decide) (by decide)
  refine ⟨htopo, by decide, by decide, h.1.trans (by decide), h.2.trans (by decide)⟩

/-- Python `int()` applied to a float value: truncation toward zero. -/
def pythonInt (q : Rat) : Int :=
  if q < 0 then -(Int.floor (-q)) else Int.floor q

/-- Embedding of the coordinate-to-cell-index computation of
`terminals_in_sampling_grid_fast` (analyse_tree.py lines 250-253): per-axis
`np.floor((coord - start) / side)`, combined as
`int(xelem_num + yelem_num * nelem_x + zelem_num * (nelem_x * nelem_y))`.
Axis origins, cell sizes and the per-axis cell counts `nelem_x`, `nelem_y` are
the Spatial Grid Indexer inputs of spec section 4.4 (the caller derives them
from the mesh bounding box). -/
def sample_grid_index (sx sy sz xside yside zside nelem_x nelem_y : Rat)
    (cx cy cz : Rat) : Int :=
  let xelem_num : Int := Int.floor ((cx - sx) / xside)
  let yelem_num : Int := Int.floor ((cy - sy) / yside)
  let zelem_num : Int := Int.floor ((cz - sz) / zside)
  pythonInt ((xelem_num : Rat) + (yelem_num : Rat) * nelem_x
    + (zelem_num : Rat) * (nelem_x * nelem_y))

/-- Truncation of a natural-number value is exact. -/
theorem pythonInt_natCast (m : Nat) : pythonInt ((m : Nat) : Rat) = (m : Int) := by
  have h : ¬ ((m : Rat) < 0) := not_lt.mpr (Nat.cast_nonneg m)
  simp [pythonInt, h]

/-- Floor of a cell-centred offset: `⌊(k + 1/2 : ℚ)⌋ = k`. -/
theorem floor_centroid (k : Nat) : Int.floor ((k : Rat) + 1 / 2) = (k : Int) := by
  rw [Int.floor_eq_iff]
  constructor
  · push_cast; linarith
  · push_cast; linarith

/-- C9: round trip of the grid indexer — for a uniform grid with positive cell
sides and `nx × ny × nz` cells, the centroid of cell `i` (axis offsets
`i % nx`, `i / nx % ny`, `i / (nx*ny)`, each shifted by half a cell) indexes
back to exactly `i`. -/
theorem C9_grid_index_round_trip (sx sy sz xside yside zside : Rat)
    (nx ny nz i : Nat)
    (hx : 0 < xside) (hy : 0 < yside) (hz : 0 < zside)
    (hi : i < nx * ny * nz) :
    sample_grid_index sx sy sz xside yside zside (nx : Rat) (ny : Rat)
      (sx + ((i % nx : Nat) + 1 / 2) * xside)
      (sy + ((i / nx % ny : Nat) + 1 / 2) * yside)
      (sz + ((i / (nx * ny) : Nat) + 1 / 2) * zside)
      = (i : Int) := by
  have hfloor : ∀ (s side : Rat) (k : Nat), 0 < side →
      Int.floor ((s + ((k : Nat) + 1 / 2) * side - s) / side) = (k : Int) := by
    intro s side k hside
    have h1 : s + ((k : Rat) + 1 / 2) * side - s = ((k : Rat) + 1 / 2) * side := by ring
    rw [h1, mul_div_cancel_right₀ _ (ne_of_gt hside), floor_centroid]
  have hnat : i % nx + (i / nx % ny) * nx + (i / (nx * ny)) * (nx * ny) = i := by
    have h3 : i / (nx * ny) = i / nx / ny := (Nat.div_div_eq_div_mul i nx ny).symm
    rw [h3]
    conv_rhs => rw [← Nat.div_add_mod i nx, ← Nat.div_add_mod (i / nx) ny]
    ring
  have harg : ((((i % nx : Nat) : Int) : Rat) + (((i / nx % ny : Nat) : Int) : Rat) * (nx : Rat)
      + (((i / (nx * ny) : Nat) : Int) : Rat) * ((nx : Rat) * (ny : Rat)))
      = (((i % nx + (i / nx % ny) * nx + (i / (nx * ny)) * (nx * ny) : Nat)) : Rat) := by
    simp only [Int.cast_natCast]
    push_cast
    ring
  unfold sample_grid_index
  rw [hfloor sx xside (i % nx) hx, hfloor sy yside (i / nx % ny) hy,
      hfloor sz zside (i / (nx * ny)) hz]
  dsimp only
  rw [harg, hnat, pythonInt_natCast]

/-- Witness for the indexer round trip: grid of 2×2×2 unit cells at the
origin, cell 5 — centroid `(3/2, 1/2, 3/2)` maps back to index 5. -/
theorem C9_grid_index_round_trip_witness :
    (0 : Rat) < 1 ∧ 5 < 2 * 2 * 2 ∧
    sample_grid_index 0 0 0 1 1 1 ((2 : Nat) : Rat) ((2 : Nat) : Rat)
      (0 + ((5 % 2 : Nat) + 1 / 2) * 1)
      (0 + ((5 / 2 % 2 : Nat) + 1 / 2) * 1)
      (0 + ((5 / (2 * 2) : Nat) + 1 / 2) * 1)
      = ((5 : Nat) : Int) := by
  refine ⟨by norm_num, by norm_num, ?_⟩
  exact C9_grid_index_round_trip 0 0 0 1 1 1 2 2 2 5
    (by norm_num) (by norm_num) (by norm_num) (by norm_num)

/-- Entry `tbl[idx][k]` of a rational table (node coordinate rows). -/
def nodeCol (tbl : List (List Rat)) (idx k : Nat) : Rat :=
  (tbl.getD idx []).getD k 0

/-- The rectangular sampling mesh (`rectangular_mesh` dict): element rows
reference eight corner node indices (columns 1-8, column 0 the id), node rows
are coordinate triples. -/
structure RectMesh where
  total_elems : Nat
  elems : List (List Nat)
  nodes : List (List Rat)

/-- Mutable state of `terminals_in_sampling_grid` (analyse_tree.py lines
267-269): the per-cell counters, the per-terminal mapped flags, and the
per-terminal cell assignment, all numpy arrays initialised to zero. -/
structure TISGState where
  grid : Nat → Nat
  mapped : Nat → Nat
  telems : Nat → Nat

/-- Bounding-box membership test of lines 283-289: the terminal coordinate
(columns 1-3 of `node_loc` at row `terminal_nodes[nt]`) is at or above the
cell's first-node coordinates and strictly below its last-node coordinates. -/
def tisgInBox (mesh : RectMesh) (node_loc : List (List Rat)) (tnodes : List Nat)
    (ne nt : Nat) : Prop :=
  let first_node := elemVal mesh.elems ne 1
  let last_node := elemVal mesh.elems ne 8
  let tn := tnodes.getD nt 0
  nodeCol mesh.nodes first_node 0 ≤ nodeCol node_loc tn 1 ∧
  nodeCol node_loc tn 1 < nodeCol mesh.nodes last_node 0 ∧
  nodeCol mesh.nodes first_node 1 ≤ nodeCol node_loc tn 2 ∧
  nodeCol node_loc tn 2 < nodeCol mesh.nodes last_node 1 ∧
  nodeCol mesh.nodes first_node 2 ≤ nodeCol node_loc tn 3 ∧
  nodeCol node_loc tn 3 < nodeCol mesh.nodes last_node 2

instance (mesh : RectMesh) (node_loc : List (List Rat)) (tnodes : List Nat)
    (ne nt : Nat) : Decidable (tisgInBox mesh node_loc tnodes ne nt) := by
  unfold tisgInBox
  infer_instance

/-- Body of the inner terminal loop (lines 280-293): an unmapped terminal
inside the cell box increments the cell's counter, is flagged mapped, and
records its cell. -/
def tisgStep (mesh : RectMesh) (node_loc : List (List Rat)) (tnodes : List Nat)
    (ne nt : Nat) (s : TISGState) : TISGState :=
  if s.mapped nt = 0 ∧ tisgInBox mesh node_loc tnodes ne nt then
    ⟨updateFn s.grid ne (s.grid ne + 1), updateFn s.mapped nt 1, updateFn s.telems nt ne⟩
  else s

/-- Inner loop `for nt in range(0, num_terminals)`: `tisgInner … s m`
has processed terminals `0, …, m-1` in increasing order. -/
def tisgInner (mesh : RectMesh) (node_loc : List (List Rat)) (tnodes : List Nat)
    (ne : Nat) : TISGState → Nat → TISGState
  | s, 0 => s
  | s, m + 1 => tisgStep mesh node_loc tnodes ne m (tisgInner mesh node_loc tnodes ne s m)

/-- Outer loop over `placenta_list` (lines 271-274): a listed cell id is
processed only when it is strictly positive (`if placenta_list[ne_i] > 0`,
"assuming none in el 0"); cell id 0 is skipped even when listed. -/
def tisgOuter (mesh : RectMesh) (node_loc : List (List Rat)) (tnodes : List Nat)
    (nterm : Nat) : TISGState → List Nat → TISGState
  | s, [] => s
  | s, ne :: rest =>
    tisgOuter mesh node_loc tnodes nterm
      (if 0 < ne then tisgInner mesh node_loc tnodes ne s nterm else s) rest

/-- Result record of `terminals_in_sampling_grid` (the returned dict; the
mapped flags are internal). -/
structure TISGResult where
  terminals_in_grid : Nat → Nat
  terminal_elems : Nat → Nat

/-- Embedding of `terminals_in_sampling_grid` (analyse_tree.py lines 259-294):
the bounding-box membership fallback scan over the listed sampling cells. -/
def terminals_in_sampling_grid (mesh : RectMesh) (placenta_list : List Nat)
    (terminal_list : TerminalList) (node_loc : List (List Rat)) : TISGResult :=
  let final := tisgOuter mesh node_loc terminal_list.terminal_nodes
    terminal_list.total_terminals ⟨fun _ => 0, fun _ => 0, fun _ => 0⟩ placenta_list
  ⟨final.grid, final.telems⟩

/-- Number of terminals flagged as mapped. -/
def mappedCard (nterm : Nat) (s : TISGState) : Nat :=
  ((Finset.range nterm).filter (fun nt => s.mapped nt ≠ 0)).card

/-- Summing a counter array after a single increment adds one when the
incremented index is inside the summation range. -/
theorem sum_updateFn_add_one (f : Nat → Nat) (i : Nat) :
    ∀ M, (Finset.range M).sum (updateFn f i (f i + 1))
      = (Finset.range M).sum f + (if i < M then 1 else 0) := by
  intro M
  have hupd : updateFn f i (f i + 1) = Function.update f i (f i + 1) := by
    funext j
    simp [updateFn, Function.update_apply]
  rw [hupd]
  by_cases h : i < M
  · rw [if_pos h, Finset.sum_update_of_mem (Finset.mem_range.mpr h)]
    rw [← Finset.sum_erase_add (Finset.range M) f (Finset.mem_range.mpr h)]
    rw [Finset.sdiff_singleton_eq_erase]
    omega
  · rw [if_neg h]
    have hout : ∀ x ∈ Finset.range M, Function.update f i (f i + 1) x = f x := by
      intro x hx
      have hxi : x ≠ i := by
        have := Finset.mem_range.mp hx
        omega
      simp [Function.update_apply, hxi]
    rw [Finset.sum_congr rfl hout]
    omega

/-- Flagging a previously unmapped terminal increases the mapped count by
exactly one. -/
theorem mappedCard_update (nterm nt : Nat) (s : TISGState)
    (hnt : nt < nterm) (h0 : s.mapped nt = 0) (ne : Nat) :
    mappedCard nterm ⟨updateFn s.grid ne (s.grid ne + 1), updateFn s.mapped nt 1,
      updateFn s.telems nt ne⟩ = mappedCard nterm s + 1 := by
  unfold mappedCard
  have hset : ((Finset.range nterm).filter
      (fun t => updateFn s.mapped nt 1 t ≠ 0))
      = insert nt ((Finset.range nterm).filter (fun t => s.mapped t ≠ 0)) := by
    ext t
    simp only [Finset.mem_filter, Finset.mem_insert, Finset.mem_range]
    by_cases ht : t = nt
    · subst ht
      simp [updateFn, hnt]
    · simp [updateFn, ht]
  rw [hset, Finset.card_insert_of_not_mem]
  simp only [Finset.mem_filter, Finset.mem_range]
  rintro ⟨_, hmem⟩
  exact hmem h0

/-- The two C10 invariants: per-cell counters sum to at most the number of
mapped terminals, and the counter of cell 0 stays zero. -/
def tisgInv (nterm : Nat) (s : TISGState) : Prop :=
  (∀ M, (Finset.range M).sum s.grid ≤ mappedCard nterm s) ∧ s.grid 0 = 0

/-- One inner step preserves the invariants when the processed cell id is
positive and the terminal index is in range. -/
theorem tisgStep_inv (mesh : RectMesh) (node_loc : List (List Rat))
    (tnodes : List Nat) (nterm ne nt : Nat) (hne : 0 < ne) (hnt : nt < nterm)
    (s : TISGState) (hinv : tisgInv nterm s) :
    tisgInv nterm (tisgStep mesh node_loc tnodes ne nt s) := by
  unfold tisgStep
  by_cases hcond : s.mapped nt = 0 ∧ tisgInBox mesh node_loc tnodes ne nt
  · rw [if_pos hcond]
    constructor
    · intro M
      rw [mappedCard_update nterm nt s hnt hcond.1 ne]
      have hsum := sum_updateFn_add_one s.grid ne M
      have h1 := hinv.1 M
      simp only [hsum]
      split_ifs <;> omega
    · have : (0 : Nat) ≠ ne := by omega
      simp [updateFn, this]
      exact hinv.2
  · rw [if_neg hcond]
    exact hinv

/-- The whole inner loop preserves the invariants for a positive cell id. -/
theorem tisgInner_inv (mesh : RectMesh) (node_loc : List (List Rat))
    (tnodes : List Nat) (nterm ne : Nat) (hne : 0 < ne) :
    ∀ (m : Nat), m ≤ nterm → ∀ (s : TISGState), tisgInv nterm s →
      tisgInv nterm (tisgInner mesh node_loc tnodes ne s m) := by
  intro m
  induction m with
  | zero => intro _ s h; exact h
  | succ m ih =>
    intro hm s h
    exact tisgStep_inv mesh node_loc tnodes nterm ne m hne (by omega) _
      (ih (by omega) s h)

/-- The outer loop preserves the invariants: listed cell 0 is skipped, every
other listed cell runs the guarded inner loop. -/
theorem tisgOuter_inv (mesh : RectMesh) (node_loc : List (List Rat))
    (tnodes : List Nat) (nterm : Nat) :
    ∀ (l : List Nat) (s : TISGState), tisgInv nterm s →
      tisgInv nterm (tisgOuter mesh node_loc tnodes nterm s l) := by
  intro l
  induction l with
  | nil => intro s h; exact h
  | cons ne rest ih =>
    intro s h
    unfold tisgOuter
    by_cases hne : 0 < ne
    · rw [if_pos hne]
      exact ih _ (tisgInner_inv mesh node_loc tnodes nterm ne hne nterm le_rfl s h)
    · rw [if_neg hne]
      exact ih s h

/-- C10: in the fallback scan, each terminal is counted at most once — the sum
of `terminals_in_grid` over any index range never exceeds `total_terminals` —
and cell id 0 is always skipped (even when it appears in `placenta_list`,
which is unrestricted here), so `terminals_in_grid 0 = 0` in every returned
result. -/
theorem C10_fallback_scan_invariants (mesh : RectMesh) (placenta_list : List Nat)
    (terminal_list : TerminalList) (node_loc : List (List Rat)) (M : Nat) :
    (Finset.range M).sum
        (terminals_in_sampling_grid mesh placenta_list terminal_list
          node_loc).terminals_in_grid
      ≤ terminal_list.total_terminals ∧
    (terminals_in_sampling_grid mesh placenta_list terminal_list
        node_loc).terminals_in_grid 0 = 0 := by
  have hinit : tisgInv terminal_list.total_terminals
      ⟨fun _ => 0, fun _ => 0, fun _ => 0⟩ := by
    constructor
    · intro m
      simp [mappedCard]
    · rfl
  have hfin := tisgOuter_inv mesh node_loc terminal_list.terminal_nodes
    terminal_list.total_terminals placenta_list _ hinit
  have hcard : mappedCard terminal_list.total_terminals
      (tisgOuter mesh node_loc terminal_list.terminal_nodes
        terminal_list.total_terminals ⟨fun _ => 0, fun _ => 0, fun _ => 0⟩
        placenta_list) ≤ terminal_list.total_terminals := by
    unfold mappedCard
    calc ((Finset.range terminal_list.total_terminals).filter _).card
        ≤ (Finset.range terminal_list.total_terminals).card :=
          Finset.card_filter_le _ _
      _ = terminal_list.total_terminals := Finset.card_range _
  exact ⟨le_trans (hfin.1 M) hcard, hfin.2⟩

/-- Modelled from the spec: `pg_utilities.check_in_ellipsoid` is not under
`src/`.  Spec section 6: a strict algebraic inside predicate —
`x²/rx² + y²/ry² + z²/rz² < 1`. -/
def check_in_ellipsoid (x y z rx ry rz : Rat) : Prop :=
  x ^ 2 / rx ^ 2 + y ^ 2 / ry ^ 2 + z ^ 2 / rz ^ 2 < 1

instance (x y z rx ry rz : Rat) : Decidable (check_in_ellipsoid x y z rx ry rz) := by
  unfold check_in_ellipsoid
  infer_instance

/-- Modelled from the spec: `pg_utilities.check_on_ellipsoid` is not under
`src/`.  Spec section 6: the boundary predicate —
`x²/rx² + y²/ry² + z²/rz² = 1`. -/
def check_on_ellipsoid (x y z rx ry rz : Rat) : Prop :=
  x ^ 2 / rx ^ 2 + y ^ 2 / ry ^ 2 + z ^ 2 / rz ^ 2 = 1

instance (x y z rx ry rz : Rat) : Decidable (check_on_ellipsoid x y z rx ry rz) := by
  unfold check_on_ellipsoid
  infer_instance

/-- Coordinate `k` of the mesh corner node in slot `nod` of cell `ne`
(`nodes[elems[ne][nod]][k]`). -/
def cellCorner (mesh : RectMesh) (ne nod k : Nat) : Rat :=
  nodeCol mesh.nodes (elemVal mesh.elems ne nod) k

/-- Whether corner slot `nod` of cell `ne` is inside or on the ellipsoid
(`check_in_range or check_on_range`, analyse_tree.py line 333). -/
def cornerPass (mesh : RectMesh) (rx ry rz : Rat) (ne nod : Nat) : Prop :=
  check_in_ellipsoid (cellCorner mesh ne nod 0) (cellCorner mesh ne nod 1)
    (cellCorner mesh ne nod 2) rx ry rz ∨
  check_on_ellipsoid (cellCorner mesh ne nod 0) (cellCorner mesh ne nod 1)
    (cellCorner mesh ne nod 2) rx ry rz

instance (mesh : RectMesh) (rx ry rz : Rat) (ne nod : Nat) :
    Decidable (cornerPass mesh rx ry rz ne nod) := by
  unfold cornerPass
  infer_instance

/-- The corner counter `count_in_range` of analyse_tree.py lines 328-335:
the number of the eight corner slots whose node is inside or on the
ellipsoid. -/
def count_in_range (mesh : RectMesh) (rx ry rz : Rat) (ne : Nat) : Nat :=
  (List.range 8).countP (fun j => cornerPass mesh rx ry rz ne (j + 1))

/-- `np.linspace(a, b, n)`: `n` evenly spaced points from `a` to `b`
(for `n = 1` the rational division by zero yields the numpy single point `a`). -/
def linspace (a b : Rat) (n : Nat) : List Rat :=
  (List.range n).map (fun i => a + i * (b - a) / ((n : Rat) - 1))

/-- `np.trapz(y, x)`: composite trapezoidal rule,
`Σ (x[i+1] - x[i]) · (y[i] + y[i+1]) / 2`. -/
noncomputable def trapz (y : List Real) (x : List Rat) : Real :=
  (List.zip (List.zip x x.tail) (List.zip y y.tail)).foldl
    (fun acc p => acc + (((p.1.2 - p.1.1 : Rat) : Real)) * (p.2.1 + p.2.2) / 2) 0

/-- The clamped surface height of analyse_tree.py lines 364-373: the radicand
`z_radius²(1 − (x/x_radius)² − (y/y_radius)²)` is raised to `startz²` when not
above it, square-rooted, then clamped into `[startz, endz]` (floats modelled
as exact rationals, the square root in the reals). -/
noncomputable def zClamped (rx ry rz sz ez x y : Rat) : Real :=
  let t : Rat := rz ^ 2 * (1 - (x / rx) ^ 2 - (y / ry) ^ 2)
  let t2 : Rat := if t ≤ sz ^ 2 then sz ^ 2 else t
  let z : Real := Real.sqrt ((t2 : Rat) : Real)
  if ((ez : Rat) : Real) < z then ((ez : Rat) : Real)
  else if z < ((sz : Rat) : Real) then ((sz : Rat) : Real)
  else z

/-- One quadrature pass of analyse_tree.py lines 361-377: sample the clamped
surface height on the meshgrid of the cell's x/y extent and integrate by the
trapezoidal rule in each axis (`intermediate[i] = trapz(zv[:, i], xVector)`,
then `trapz(intermediate, yVector)`, exactly as the code composes them). -/
noncomputable def quadVal (rx ry rz sx ex sy ey sz ez : Rat) (n : Nat) : Real :=
  let xV := linspace sx ex n
  let yV := linspace sy ey n
  let intermediate : List Real := (List.range n).map (fun i =>
    trapz ((List.range n).map (fun k =>
      zClamped rx ry rz sz ez (xV.getD i 0) (yV.getD k 0))) xV)
  trapz intermediate yV

/-- The boundary-cell volume of analyse_tree.py lines 348-398, including the
remapping of the cell's z-range to the positive quadrant: a cell entirely
below the equator is reflected, a cell spanning it is split into the two
sub-integrals (`repeat`), and the slab below the local z start is
subtracted. -/
noncomputable def boundary_vol (rx ry rz sx ex sy ey sz ez : Rat) (n : Nat) : Real :=
  if sz < 0 ∧ ez ≤ 0 then
    quadVal rx ry rz sx ex sy ey (|ez|) (|sz|) n
      - (((|ez| * (ex - sx) * (ey - sy) : Rat)) : Real)
  else if sz < 0 ∧ 0 < ez then
    (quadVal rx ry rz sx ex sy ey 0 (|sz|) n
      - (((0 * (ex - sx) * (ey - sy) : Rat)) : Real))
    + (quadVal rx ry rz sx ex sy ey 0 ez n
      - (((0 * (ex - sx) * (ey - sy) : Rat)) : Real))
  else
    quadVal rx ry rz sx ex sy ey sz ez n
      - (((sz * (ex - sx) * (ey - sy) : Rat)) : Real)

/-- Per-cell volume and non-empty flag of the classification at
analyse_tree.py lines 336-347: eight corners in gives the full cuboid volume,
zero corners in gives volume 0 and an empty cell, anything else goes to the
boundary quadrature; the non-empty list records the first and third cases. -/
noncomputable def cellVol (mesh : RectMesh) (rx ry rz : Rat) (n ne : Nat) :
    Real × Bool :=
  let sx := cellCorner mesh ne 1 0
  let ex := cellCorner mesh ne 8 0
  let sy := cellCorner mesh ne 1 1
  let ey := cellCorner mesh ne 8 1
  let sz := cellCorner mesh ne 1 2
  let ez := cellCorner mesh ne 8 2
  let cnt := count_in_range mesh rx ry rz ne
  if cnt = 8 then ((((ex - sx) * (ey - sy) * (ez - sz) : Rat) : Real), true)
  else if cnt = 0 then ((0 : Real), false)
  else (boundary_vol rx ry rz sx ex sy ey sz ez n, true)

/-- The cell loop `for ne in range(0, len(elems))` of analyse_tree.py line
318: `evgLoop … s k` has processed cells `0, …, k-1` in increasing order,
writing each cell's volume and appending non-empty cell ids in order. -/
noncomputable def evgLoop (mesh : RectMesh) (rx ry rz : Rat) (n : Nat) :
    ((Nat → Real) × List Nat) → Nat → ((Nat → Real) × List Nat)
  | s, 0 => s
  | s, k + 1 =>
    let s2 := evgLoop mesh rx ry rz n s k
    let v := cellVol mesh rx ry rz n k
    (updateFn s2.1 k v.1, if v.2 then s2.2 ++ [k] else s2.2)

/-- Result record of `ellipse_volume_to_grid` (the returned dict). -/
structure EVGResult where
  pl_vol_in_grid : Nat → Real
  non_empty_rects : List Nat

/-- Embedding of `ellipse_volume_to_grid` (analyse_tree.py lines 297-404).
`pg_utilities.calculate_ellipse_radii` is not under `src/` and the spec gives
only its signature, so the calculator is embedded as a function of the
ellipsoid semi-axes it returns (spec section 3: radii `> 0`). -/
noncomputable def ellipse_volume_to_grid (mesh : RectMesh) (rx ry rz : Rat)
    (num_test_points : Nat) : EVGResult :=
  let s := evgLoop mesh rx ry rz num_test_points ((fun _ => 0), []) mesh.elems.length
  ⟨s.1, s.2⟩

/-- Each cell's recorded volume is its own `cellVol`, independent of the rest
of the loop. -/
theorem evgLoop_at (mesh : RectMesh) (rx ry rz : Rat) (n : Nat) :
    ∀ (m : Nat) (s : (Nat → Real) × List Nat) (ne : Nat), ne < m →
      (evgLoop mesh rx ry rz n s m).1 ne = (cellVol mesh rx ry rz n ne).1 := by
  intro m
  induction m with
  | zero => intro s ne h; omega
  | succ m ih =>
    intro s ne h
    show (updateFn (evgLoop mesh rx ry rz n s m).1 m (cellVol mesh rx ry rz n m).1) ne
      = (cellVol mesh rx ry rz n ne).1
    by_cases hm : ne = m
    · subst hm
      simp [updateFn]
    · have : ne < m := by omega
      simp [updateFn, hm, ih s ne this]

/-- C5: per cell, if all eight corner nodes are inside or on the ellipsoid the
recorded volume is the full cuboid volume
`(endx−startx)·(endy−starty)·(endz−startz)`, and if none of the eight corner
nodes is inside or on it the recorded volume is exactly 0. -/
theorem C5_cell_classification (mesh : RectMesh) (rx ry rz : Rat) (n ne : Nat)
    (hne : ne < mesh.elems.length) :
    ((∀ nod, nod < 8 → cornerPass mesh rx ry rz ne (nod + 1)) →
      (ellipse_volume_to_grid mesh rx ry rz n).pl_vol_in_grid ne
        = (((cellCorner mesh ne 8 0 - cellCorner mesh ne 1 0)
            * (cellCorner mesh ne 8 1 - cellCorner mesh ne 1 1)
            * (cellCorner mesh ne 8 2 - cellCorner mesh ne 1 2) : Rat) : Real)) ∧
    ((∀ nod, nod < 8 → ¬ cornerPass mesh rx ry rz ne (nod + 1)) →
      (ellipse_volume_to_grid mesh rx ry rz n).pl_vol_in_grid ne = 0) := by
  have hvol : (ellipse_volume_to_grid mesh rx ry rz n).pl_vol_in_grid ne
      = (cellVol mesh rx ry rz n ne).1 :=
    evgLoop_at mesh rx ry rz n mesh.elems.length ((fun _ => 0), []) ne hne
  constructor
  · intro h
    have hcnt : count_in_range mesh rx ry rz ne = 8 := by
      unfold count_in_range
      conv_rhs => rw [← List.length_range 8]
      rw [List.countP_eq_length]
      intro j hj
      simpa using h j (List.mem_range.mp hj)
    rw [hvol]
    simp [cellVol, hcnt]
  · intro h
    have hcnt : count_in_range mesh rx ry rz ne = 0 := by
      unfold count_in_range
      rw [List.countP_eq_zero]
      intro j hj
      simpa using h j (List.mem_range.mp hj)
    rw [hvol]
    simp [cellVol, hcnt]

/-- Unit cell `[0,1]³` with corner slot 1 the minimum corner and slot 8 the
maximum corner, entirely inside an ellipsoid of radii 10. -/
def meshIn : RectMesh :=
  ⟨1, [[0, 0, 1, 2, 3, 4, 5, 6, 7]],
   [[0, 0, 0], [1, 0, 0], [0, 1, 0], [1, 1, 0],
    [0, 0, 1], [1, 0, 1], [0, 1, 1], [1, 1, 1]]⟩

/-- Unit cell `[5,6]³`, entirely outside the unit sphere. -/
def meshOut : RectMesh :=
  ⟨1, [[0, 0, 1, 2, 3, 4, 5, 6, 7]],
   [[5, 5, 5], [6, 5, 5], [5, 6, 5], [6, 6, 5],
    [5, 5, 6], [6, 5, 6], [5, 6, 6], [6, 6, 6]]⟩

/-- Witness for the cell classification: the all-inside cell records exactly
its cuboid volume, the all-outside cell records 0. -/
theorem C5_cell_classification_witness :
    (∀ nod, nod < 8 → cornerPass meshIn 10 10 10 0 (nod + 1)) ∧
    (ellipse_volume_to_grid meshIn 10 10 10 5).pl_vol_in_grid 0
      = (((cellCorner meshIn 0 8 0 - cellCorner meshIn 0 1 0)
          * (cellCorner meshIn 0 8 1 - cellCorner meshIn 0 1 1)
          * (cellCorner meshIn 0 8 2 - cellCorner meshIn 0 1 2) : Rat) : Real) ∧
    (∀ nod, nod < 8 → ¬ cornerPass meshOut 1 1 1 0 (nod + 1)) ∧
    (ellipse_volume_to_grid meshOut 1 1 1 5).pl_vol_in_grid 0 = 0 := by
  have h1 : ∀ nod, nod < 8 → cornerPass meshIn 10 10 10 0 (nod + 1) := by
    intro nod hj
    interval_cases nod <;>
      norm_num [cornerPass, check_in_ellipsoid, check_on_ellipsoid, cellCorner,
        nodeCol, elemVal, meshIn]
  have h2 : ∀ nod, nod < 8 → ¬ cornerPass meshOut 1 1 1 0 (nod + 1) := by
    intro nod hj
    interval_cases nod <;>
      norm_num [cornerPass, check_in_ellipsoid, check_on_ellipsoid, cellCorner,
        nodeCol, elemVal, meshOut]
  exact ⟨h1, (C5_cell_classification meshIn 10 10 10 5 0 (by simp [meshIn])).1 h1,
         h2, (C5_cell_classification meshOut 1 1 1 5 0 (by simp [meshOut])).2 h2⟩

/-- Single cell `[-2,2]³` strictly containing the unit sphere: every corner of
the bounding box lies outside the ellipsoid. -/
def meshBig : RectMesh :=
  ⟨1, [[0, 0, 1, 2, 3, 4, 5, 6, 7]],
   [[-2, -2, -2], [2, -2, -2], [-2, 2, -2], [2, 2, -2],
    [-2, -2, 2], [2, -2, 2], [-2, 2, 2], [2, 2, 2]]⟩

/-- C6: on a one-cell grid whose bounding box fully contains the ellipsoid,
no corner is inside or on the ellipsoid, so the code classifies the cell as
completely outside: it returns zero non-empty cells and records volume 0 —
not one non-empty cell with the (positive) full ellipsoid volume as the claim
demands. -/
theorem C6_containing_cell_eval :
    count_in_range meshBig 1 1 1 0 = 0 ∧
    (ellipse_volume_to_grid meshBig 1 1 1 20).non_empty_rects = [] ∧
    (ellipse_volume_to_grid meshBig 1 1 1 20).pl_vol_in_grid 0 = 0 := by
  have hpass : ∀ j, j < 8 → ¬ cornerPass meshBig 1 1 1 0 (j + 1) := by
    intro j hj
    interval_cases j <;>
      norm_num [cornerPass, check_in_ellipsoid, check_on_ellipsoid, cellCorner,
        nodeCol, elemVal, meshBig]
  have hcnt : count_in_range meshBig 1 1 1 0 = 0 := by
    unfold count_in_range
    rw [List.countP_eq_zero]
    intro j hj
    simpa using hpass j (List.mem_range.mp hj)
  have hcell : cellVol meshBig 1 1 1 20 0 = ((0 : Real), false) := by
    simp [cellVol, hcnt]
  have hcell1 : (cellVol meshBig 1 1 1 20 0).1 = (0 : Real) := by rw [hcell]
  have hcell2 : (cellVol meshBig 1 1 1 20 0).2 = false := by rw [hcell]
  refine ⟨hcnt, ?_, ?_⟩
  · show (if (cellVol meshBig 1 1 1 20 0).2 then ([] : List Nat) ++ [0]
      else ([] : List Nat)) = []
    rw [hcell2]
    simp
  · show (updateFn (fun _ => (0 : Real)) 0 (cellVol meshBig 1 1 1 20 0).1) 0 = 0
    simp [updateFn, hcell1]

/-- Embedding of the per-branch endpoint validation of `cal_br_vol_samp_grid`
(analyse_tree.py lines 433-446): the loop over branches computes the four
inside/on checks for the two endpoint nodes (tree node rows carry coordinates
in columns 1-3) and calls `sys.exit` naming the first branch for which
`(check_in_range_N1 == False and check_on_range_N1 == False) or
(check_in_range_N2 == False and check_in_range_N2 == False)` holds — the
second disjunct is transcribed verbatim from the source: it tests
`check_in_range_N2` twice, and the computed `check_on_range_N2` is never
used.  The result is the index of the aborting branch, or `none` when every
branch passes and the volume rasterisation proceeds. -/
def cal_br_vol_check (nodedata : List (List Rat)) (eldata : List (List Nat))
    (rx ry rz : Rat) : Option Nat :=
  (List.range eldata.length).find? (fun ne =>
    let n1 := elemVal eldata ne 1
    let n2 := elemVal eldata ne 2
    decide ((¬ check_in_ellipsoid (nodeCol nodedata n1 1) (nodeCol nodedata n1 2)
          (nodeCol nodedata n1 3) rx ry rz
        ∧ ¬ check_on_ellipsoid (nodeCol nodedata n1 1) (nodeCol nodedata n1 2)
          (nodeCol nodedata n1 3) rx ry rz)
      ∨ (¬ check_in_ellipsoid (nodeCol nodedata n2 1) (nodeCol nodedata n2 2)
          (nodeCol nodedata n2 3) rx ry rz
        ∧ ¬ check_in_ellipsoid (nodeCol nodedata n2 1) (nodeCol nodedata n2 2)
          (nodeCol nodedata n2 3) rx ry rz)))

/-- Node table of a single branch from the centre to the surface point
`(1,0,0)` of the unit sphere (rows `[id, x, y, z]`). -/
def brNodes : List (List Rat) := [[0, 0, 0, 0], [1, 1, 0, 0]]

/-- Element table of that single branch. -/
def brElems : List (List Nat) := [[0, 0, 1]]

/-- C7: a branch whose second endpoint lies exactly on the ellipsoid surface
(inside-or-on holds for both endpoints) nevertheless aborts — the validation
names branch 0 — because the second disjunct of the check reads
`check_in_range_N2` where `check_on_range_N2` was computed. -/
theorem C7_on_surface_endpoint_aborts :
    (check_in_ellipsoid 0 0 0 1 1 1 ∨ check_on_ellipsoid 0 0 0 1 1 1) ∧
    (check_in_ellipsoid 1 0 0 1 1 1 ∨ check_on_ellipsoid 1 0 0 1 1 1) ∧
    cal_br_vol_check brNodes brElems 1 1 1 = some 0 := by
  have hin1 : check_in_ellipsoid 0 0 0 1 1 1 := by
    norm_num [check_in_ellipsoid]
  have hon2 : check_on_ellipsoid 1 0 0 1 1 1 := by
    norm_num [check_on_ellipsoid]
  have hnotin2 : ¬ check_in_ellipsoid 1 0 0 1 1 1 := by
    norm_num [check_in_ellipsoid]
  refine ⟨Or.inl hin1, Or.inr hon2, ?_⟩
  unfold cal_br_vol_check
  have hlen : brElems.length = 1 := by simp [brElems]
  have hr : List.range brElems.length = [0] := by
    rw [hlen]
    decide
  rw [hr, List.find?_cons_of_pos]
  simp only [elemVal, nodeCol, brNodes, brElems]
  norm_num [check_in_ellipsoid]

/-- Embedding of `tree_statistics` (analyse_tree.py lines 148-220) reduced to
its observable outcome: line 157 derives the `diameters` array as `2·radius`,
but the first iteration of the per-element loop starting at line 189
evaluates `diameter[ne]` (line 212) — a name that is never defined anywhere in
the function — so for any nonempty element table the function raises
`NameError` before producing anything; with zero elements the loop body never
runs and the function falls off the end without a `return` statement, so no
statistics are returned in either case. -/
def tree_statistics (_node_loc : List (List Rat)) (elems : List (List Nat))
    (radius : List Rat) : Except String Unit :=
  let _diameters := radius.map (fun r => 2 * r)
  if elems.length = 0 then Except.ok ()
  else Except.error "NameError: name diameter is not defined"

/-- C8: on any tree with at least one element — here the three-element
scenario tree — `tree_statistics` raises `NameError` at the reference to the
undefined name `diameter` instead of using the radius-derived `diameters`
array, and returns no per-branch statistics. -/
theorem C8_tree_statistics_name_error :
    tree_statistics nodes3 elems3 [1, 1, 1]
      = Except.error "NameError: name diameter is not defined" := rfl

end Placentagen
